import Mathlib

/-!
Verification of the gke utility routines in caliban/gke/utils.py.

Strings are embedded as lists of characters; Python regular expressions
are compiled by hand into list functions.  Note the Python semantics of
the dollar anchor in a regular expression: it matches at the end of the
string OR just before a single newline at the end of the string.  The
embeddings of the three regex matchers below model this faithfully.

The enums GPU, TPU and OpStatus and the constant MAX_GB_PER_CPU come
from modules of this repository (caliban.cloud.types, caliban.gke.types,
caliban.gke.constants) that are not part of the sources at hand; they
are modelled from the specification, as indicated on each definition.
-/

/-- A Python string, embedded as its list of characters. -/
abbrev Str := List Char

/-- Modelled from the spec: the GPU enum of caliban.cloud.types
(enumerated GPU model names).  The member set is representative; the
spec names V100 explicitly and describes the others only as known
Tesla model names. -/
inductive GPU where
  | K80
  | P4
  | P100
  | T4
  | V100
  deriving DecidableEq

/-- Modelled from the spec: the TPU enum of caliban.cloud.types,
version tags v2 and v3. -/
inductive TPU where
  | V2
  | V3
  deriving DecidableEq

/-- Modelled from the spec: GPUSpec of caliban.cloud.types, a pair of
an accelerator kind and a count. -/
structure GPUSpec where
  gpu : GPU
  count : Nat
  deriving DecidableEq

/-- Modelled from the spec: TPUSpec of caliban.cloud.types, a pair of
a TPU kind and a count. -/
structure TPUSpec where
  tpu : TPU
  count : Nat
  deriving DecidableEq

/-- Modelled from the spec: the OpStatus enum of caliban.gke.types,
terminal and non-terminal states of an asynchronous operation. -/
inductive OpStatus where
  | PENDING
  | RUNNING
  | DONE
  | ABORTING
  deriving DecidableEq

/-- The .name attribute of an OpStatus enum member. -/
def opStatusName : OpStatus → Str
  | OpStatus.PENDING => ['P', 'E', 'N', 'D', 'I', 'N', 'G']
  | OpStatus.RUNNING => ['R', 'U', 'N', 'N', 'I', 'N', 'G']
  | OpStatus.DONE => ['D', 'O', 'N', 'E']
  | OpStatus.ABORTING => ['A', 'B', 'O', 'R', 'T', 'I', 'N', 'G']

/-- Modelled from the spec: the GB-per-CPU constant MAX_GB_PER_CPU of
caliban.gke.constants; the spec exercises the quota translation with
GB-per-CPU equal to 16. -/
def MAX_GB_PER_CPU : Int := 16

/-- A Python value that is either an int or a str; used where the code
builds dict values whose type matters (the maximum fields). -/
inductive PyVal where
  | int (n : Int)
  | str (s : Str)
  deriving DecidableEq

/-- Python chr of a decimal digit, for rendering numbers. -/
def digitChar (d : Nat) : Char :=
  Char.ofNat (48 + d)

/-- Decimal digits of a natural number, with fuel for structural
termination; fuel n + 1 always suffices. -/
def natDigitsAux : Nat → Nat → Str
  | 0, _ => []
  | fuel + 1, n =>
    if n < 10 then [digitChar n]
    else natDigitsAux fuel (n / 10) ++ [digitChar (n % 10)]

/-- Decimal rendering of a natural number. -/
def natStr (n : Nat) : Str := natDigitsAux (n + 1) n

/-- The Python str() of an integer: decimal rendering, with a leading
minus sign when negative. -/
def intStr : Int → Str
  | Int.ofNat n => natStr n
  | Int.negSucc m => '-' :: natStr (m + 1)

/-- Python int() of a nonempty digit string. -/
def natOfDigits (ds : Str) : Nat :=
  ds.foldl (fun a c => a * 10 + (c.toNat - 48)) 0

/-- Uppercasing a string, as Python upper() on ASCII input. -/
def upperStr (s : Str) : Str := s.map Char.toUpper

/-- Lowercasing a string, as Python lower() on ASCII input. -/
def lowerStr (s : Str) : Str := s.map Char.toLower

/-- Strips a literal prefix from a string: some remainder when the
string starts with the given literal, none otherwise.  This is the
compiled form of the anchored literal part of the regexes below. -/
def dropPre : Str → Str → Option Str
  | [], s => some s
  | _ :: _, [] => none
  | c :: p, d :: s => if d = c then dropPre p s else none

-- ---------------------------------------------------------------------------
-- trap (utils.py lines 20-44)

/-- The trap decorator of utils.py: the wrapped callable either returns
a value or raises an exception (embedded as Except); the wrapper
returns error_value on exception and the returned value otherwise.
Its total result type is how the embedding renders the guarantee that
nothing propagates past the trap boundary. -/
def trap {α ε ρ : Type} (error_value : ρ) (fn : α → Except ε ρ) (a : α) : ρ :=
  match fn a with
  | Except.error _ => error_value
  | Except.ok response => response

-- ---------------------------------------------------------------------------
-- validate_gpu_spec_against_limits (utils.py lines 48-76)

/-- Lookup in a Python dict keyed by GPU, embedded as an association
list with unique keys. -/
def dictGet (g : GPU) : List (GPU × Nat) → Option Nat
  | [] => none
  | (k, v) :: rest => if k = g then some v else dictGet g rest

/-- validate_gpu_spec_against_limits of utils.py: False when the
requested gpu is absent from the limits dict, False when the requested
count exceeds the mapped maximum, True otherwise.  Logging is elided. -/
def validate_gpu_spec_against_limits (gpu_spec : GPUSpec)
    (gpu_limits : List (GPU × Nat)) : Bool :=
  match dictGet gpu_spec.gpu gpu_limits with
  | none => false
  | some mx => if gpu_spec.count > mx then false else true

-- ---------------------------------------------------------------------------
-- user_verify (utils.py lines 143-167)

/-- user_verify of utils.py.  Standard input is embedded as the list of
lines that input() would deliver; the result pairs the number of
prompts issued with the choice returned (none when input is exhausted,
a case the code would only meet on end of file).  Each iteration
lowercases the line, returns the default on an empty line, loops on an
invalid line, and otherwise returns whether the line is y. -/
def user_verify (default : Bool) : List Str → Nat × Option Bool
  | [] => (0, none)
  | line :: rest =>
    let ok := lowerStr line
    if ok.length = 0 then (1, some default)
    else if ok ≠ ['y'] ∧ ok ≠ ['n'] then
      let p := user_verify default rest
      (p.1 + 1, p.2)
    else (1, some (ok == ['y']))

-- ---------------------------------------------------------------------------
-- wait_for_operation (utils.py lines 171-214)

/-- A response delivered by the operations API: its status string plus
an identifier standing for the rest of the response dictionary, so that
distinct responses with equal status stay distinguishable. -/
structure OpResponse where
  status : Str
  opId : Nat
  deriving DecidableEq

/-- An observable event of the polling loop: one status query (with the
response it received) or one call to sleep with its duration. -/
inductive PollEvent where
  | query (rsp : OpResponse)
  | sleepCall (sec : Nat)
  deriving DecidableEq

/-- Recognizes query events in a poll trace. -/
def isQueryEvent : PollEvent → Bool
  | PollEvent.query _ => true
  | PollEvent.sleepCall _ => false

/-- The inner wait loop of wait_for_operation: the operations API is
embedded as the sequence of responses successive queries receive.  Each
iteration queries once; a response whose status is among the condition
strings is returned, otherwise the loop sleeps and continues.  The
first component is the trace of query and sleep events. -/
def waitLoop (conds : List Str) (sleep_sec : Nat) :
    List OpResponse → List PollEvent × Option OpResponse
  | [] => ([], none)
  | r :: rest =>
    if r.status ∈ conds then ([PollEvent.query r], some r)
    else
      let p := waitLoop conds sleep_sec rest
      (PollEvent.query r :: PollEvent.sleepCall sleep_sec :: p.1, p.2)

/-- wait_for_operation of utils.py: returns None immediately when the
conditions list is empty, otherwise runs the wait loop against the
condition names.  The spinner is cosmetic and elided. -/
def wait_for_operation (conditions : List OpStatus) (sleep_sec : Nat)
    (responses : List OpResponse) : List PollEvent × Option OpResponse :=
  if conditions.length = 0 then ([], none)
  else waitLoop (conditions.map opStatusName) sleep_sec responses

-- ---------------------------------------------------------------------------
-- gke_tpu_to_tpuspec (utils.py lines 218-232)

/-- The literal v2- that opens the first alternative of the tpu regex. -/
def v2dash : Str := ['v', '2', '-']

/-- The literal v3- that opens the second alternative of the tpu regex. -/
def v3dash : Str := ['v', '3', '-']

/-- Whether a remainder is admissible at a Python dollar anchor: it is
the end of the string, or one newline ending the string. -/
def dollarTail (rem : Str) : Prop := rem = [] ∨ rem = ['\n']

instance (rem : Str) : Decidable (dollarTail rem) := by
  unfold dollarTail; infer_instance

/-- The compiled tpu regex of gke_tpu_to_tpuspec, anchored on both
sides: a v2 or v3 literal, a dash, then one or more decimal digits up
to the dollar anchor.  Returns the two named groups. -/
def tpuReMatch (s : Str) : Option (Str × Str) :=
  match dropPre v2dash s with
  | some rest =>
    if rest.takeWhile Char.isDigit ≠ [] ∧
        dollarTail (rest.dropWhile Char.isDigit) then
      some (['v', '2'], rest.takeWhile Char.isDigit)
    else none
  | none =>
    match dropPre v3dash s with
    | some rest =>
      if rest.takeWhile Char.isDigit ≠ [] ∧
          dollarTail (rest.dropWhile Char.isDigit) then
        some (['v', '3'], rest.takeWhile Char.isDigit)
      else none
    | none => none

/-- Indexing the TPU enum by member name, as the Python TPU[name]. -/
def TPU.fromName : Str → Option TPU
  | ['V', '2'] => some TPU.V2
  | ['V', '3'] => some TPU.V3
  | _ => none

/-- gke_tpu_to_tpuspec of utils.py: matches the tpu regex (a failed
match raises and is trapped to None), uppercases the version group,
indexes the TPU enum with it, and parses the count group. -/
def gke_tpu_to_tpuspec (s : Str) : Option TPUSpec :=
  match tpuReMatch s with
  | none => none
  | some (v, cnt) =>
    match TPU.fromName (upperStr v) with
    | none => none
    | some t => some (TPUSpec.mk t (natOfDigits cnt))

-- ---------------------------------------------------------------------------
-- gke_gpu_to_gpu (utils.py lines 264-277)

/-- The literal nvidia-tesla- that opens the gpu regex. -/
def nvidiaTesla : Str :=
  ['n', 'v', 'i', 'd', 'i', 'a', '-', 't', 'e', 's', 'l', 'a', '-']

/-- The character class of the gpu regex model group: lowercase ASCII
letters and decimal digits. -/
def gpuClass (c : Char) : Bool := c.isLower || c.isDigit

/-- The compiled gpu regex of gke_gpu_to_gpu, anchored on both sides:
the nvidia-tesla- literal, then one or more class characters up to the
dollar anchor.  Returns the model group. -/
def gpuReMatch (s : Str) : Option Str :=
  match dropPre nvidiaTesla s with
  | none => none
  | some rest =>
    if rest.takeWhile gpuClass ≠ [] ∧
        dollarTail (rest.dropWhile gpuClass) then
      some (rest.takeWhile gpuClass)
    else none

/-- Indexing the GPU enum by member name, as the Python GPU[name]; an
unknown name raises KeyError, which the trap converts to None. -/
def GPU.fromName : Str → Option GPU
  | ['K', '8', '0'] => some GPU.K80
  | ['P', '4'] => some GPU.P4
  | ['P', '1', '0', '0'] => some GPU.P100
  | ['T', '4'] => some GPU.T4
  | ['V', '1', '0', '0'] => some GPU.V100
  | _ => none

/-- gke_gpu_to_gpu of utils.py: matches the gpu regex (a failed match
raises and is trapped to None), uppercases the model group and indexes
the GPU enum with it. -/
def gke_gpu_to_gpu (s : Str) : Option GPU :=
  match gpuReMatch s with
  | none => none
  | some m => GPU.fromName (upperStr m)

-- ---------------------------------------------------------------------------
-- resource_limits_from_quotas (utils.py lines 334-374)

/-- A quota record as returned by the compute API: a metric name, a
limit and a usage (the usage is never read by the translation). -/
structure Quota where
  metric : Str
  limit : Int
  usage : Int
  deriving DecidableEq

/-- A resource limit record built by the translation: a resource type
label and a maximum.  The maximum is a PyVal because the claims track
whether the code emits strings or numbers there. -/
structure ResourceLimit where
  resourceType : Str
  maximum : PyVal
  deriving DecidableEq

/-- The CPUS metric name. -/
def cpusStr : Str := ['C', 'P', 'U', 'S']

/-- The cpu resource type label. -/
def cpuStr : Str := ['c', 'p', 'u']

/-- The memory resource type label. -/
def memoryStr : Str := ['m', 'e', 'm', 'o', 'r', 'y']

/-- The literal NVIDIA_ that opens the gpu quota regex. -/
def nvidiaQuotaPre : Str := ['N', 'V', 'I', 'D', 'I', 'A', '_']

/-- The literal _GPUS before the dollar anchor of the gpu quota regex. -/
def gpusSuffix : Str := ['_', 'G', 'P', 'U', 'S']

/-- The character class of the gpu quota regex group: uppercase ASCII
letters and decimal digits. -/
def quotaGpuClass (c : Char) : Bool := c.isUpper || c.isDigit

/-- The compiled gpu quota regex of resource_limits_from_quotas,
anchored on both sides: the NVIDIA_ literal, one or more class
characters, then the _GPUS literal up to the dollar anchor.  Returns
the model group. -/
def gpuQuotaMatch (metric : Str) : Option Str :=
  match dropPre nvidiaQuotaPre metric with
  | none => none
  | some rest =>
    if rest.takeWhile quotaGpuClass ≠ [] ∧
        (rest.dropWhile quotaGpuClass = gpusSuffix ∨
          rest.dropWhile quotaGpuClass = gpusSuffix ++ ['\n']) then
      some (rest.takeWhile quotaGpuClass)
    else none

/-- The loop of resource_limits_from_quotas, with the list built so
far as accumulator.  A CPUS metric appends the cpu record and then the
memory record (the limit times MAX_GB_PER_CPU, stringified); a metric
matched by the gpu quota regex appends one gpu record with the model
lowercased; any other metric appends nothing. -/
def rlLoop : List Quota → List ResourceLimit → List ResourceLimit
  | [], limits => limits
  | q :: qs, limits =>
    if q.metric = cpusStr then
      rlLoop qs (limits ++
        [ResourceLimit.mk cpuStr (PyVal.str (intStr q.limit)),
         ResourceLimit.mk memoryStr
           (PyVal.str (intStr (q.limit * MAX_GB_PER_CPU)))])
    else
      match gpuQuotaMatch q.metric with
      | none => rlLoop qs limits
      | some mid =>
        rlLoop qs (limits ++
          [ResourceLimit.mk (nvidiaTesla ++ lowerStr mid)
            (PyVal.str (intStr q.limit))])

/-- resource_limits_from_quotas of utils.py.  With integer limits no
exception can occur inside the loop, so the trap wrapper never fires
and the embedding is total. -/
def resource_limits_from_quotas (quotas : List Quota) : List ResourceLimit :=
  rlLoop quotas []

-- ---------------------------------------------------------------------------
-- Spec-side definitions, written from the words of the spec and claims
-- so that the compiled code above can be compared against them, plus
-- concrete probes used by witnesses.

/-- The characters of a TPU version tag, as the spec writes it. -/
def tpuVerChars : TPU → Str
  | TPU.V2 => ['v', '2']
  | TPU.V3 => ['v', '3']

/-- A stdin line that ends the user_verify prompt loop: empty, or y or
n up to case (the spec calls these the valid responses). -/
def validResponse (l : Str) : Prop :=
  lowerStr l = [] ∨ lowerStr l = ['y'] ∨ lowerStr l = ['n']

instance (l : Str) : Decidable (validResponse l) := by
  unfold validResponse; infer_instance

/-- The verdict the spec assigns to a valid response: the default on an
empty line, True exactly on y up to case. -/
def responseVerdict (default : Bool) (l : Str) : Bool :=
  if lowerStr l = [] then default else lowerStr l == ['y']

/-- The limit map of the claim C6 example, with A read as V100. -/
def limitsA : List (GPU × Nat) := [(GPU.V100, 2)]

/-- A concrete fallible callable for the trap witness: raises on zero,
returns the successor otherwise. -/
def trapProbe (n : Nat) : Except Unit Nat :=
  if n = 0 then Except.error () else Except.ok (n + 1)

/-- Follows the words of the spec for the gpu quota metric, written by
slicing rather than through the compiled regex above: the core must
open with NVIDIA_, close with _GPUS, and hold a nonempty model of
uppercase letters and digits in between. -/
def specGpuCore (core : Str) : Option Str :=
  if 12 < core.length ∧ core.take 7 = nvidiaQuotaPre ∧
      core.drop (core.length - 5) = gpusSuffix then
    if ((core.drop 7).take (core.length - 12)).all quotaGpuClass then
      some ((core.drop 7).take (core.length - 12))
    else none
  else none

/-- The spec-side gpu quota metric match: one trailing newline is
peeled off first (the regex dollar anchor accepts it), then the core is
checked by slicing. -/
def specGpuModel (metric : Str) : Option Str :=
  specGpuCore (if metric.getLast? = some '\n' then metric.dropLast else metric)

/-- Follows the words of the spec and claim C1: the limit records one
quota record contributes, in order.  A CPUS metric yields the cpu
record then the memory record whose maximum is the limit times the
GB-per-CPU constant; a gpu quota metric yields one record named
nvidia-tesla- plus the lowercased model; anything else yields none. -/
def specQuotaLimits (q : Quota) : List ResourceLimit :=
  if q.metric = cpusStr then
    [ResourceLimit.mk cpuStr (PyVal.str (intStr q.limit)),
     ResourceLimit.mk memoryStr
       (PyVal.str (intStr (q.limit * MAX_GB_PER_CPU)))]
  else
    match specGpuModel q.metric with
    | none => []
    | some mid =>
      [ResourceLimit.mk (nvidiaTesla ++ lowerStr mid)
        (PyVal.str (intStr q.limit))]

/-- The quota metric NVIDIA_V100_GPUS followed by one newline, the
counterexample input of claim C1. -/
def nlQuotaMetric : Str :=
  nvidiaQuotaPre ++ (['V', '1', '0', '0'] ++ (gpusSuffix ++ ['\n']))

-- ---------------------------------------------------------------------------
-- Shared helper lemmas

/-- dropPre strips exactly the given literal. -/
theorem dropPre_eq_some : ∀ (p s r : Str), dropPre p s = some r ↔ s = p ++ r := by
  intro p
  induction p with
  | nil =>
    intro s r
    simp [dropPre, eq_comm]
  | cons c p ih =>
    intro s r
    cases s with
    | nil => simp [dropPre]
    | cons d s =>
      simp only [dropPre]
      by_cases h : d = c
      · subst h
        simp [ih]
      · simp [h]

/-- dropPre on the literal followed by anything succeeds. -/
theorem dropPre_append (p r : Str) : dropPre p (p ++ r) = some r :=
  (dropPre_eq_some p (p ++ r) r).mpr rfl

/-- takeWhile and dropWhile cut an append exactly at the boundary when
everything before it satisfies the predicate and the first thing after
it does not. -/
theorem takeWhile_dropWhile_append (P : Char → Bool) :
    ∀ (l r : Str), (∀ c ∈ l, P c = true) →
      (∀ c, r.head? = some c → P c = false) →
      (l ++ r).takeWhile P = l ∧ (l ++ r).dropWhile P = r := by
  intro l
  induction l with
  | nil =>
    intro r _ hr
    cases r with
    | nil => simp
    | cons c r =>
      have hc := hr c rfl
      simp [List.takeWhile_cons, List.dropWhile_cons, hc]
  | cons a l ih =>
    intro r hl hr
    have ha : P a = true := hl a (List.mem_cons_self a l)
    have h2 := ih r (fun c hc => hl c (List.mem_cons_of_mem a hc)) hr
    simp [List.takeWhile_cons, List.dropWhile_cons, ha, h2.1, h2.2]

-- ---------------------------------------------------------------------------
-- Claim C3: the error trap

/-- Claim C3: for every function wrapped by trap with a configured
sentinel and every input, a raising call makes the wrapper return the
sentinel (nothing propagates: the result type of the wrapper is total),
and a normal return passes through unchanged. -/
theorem trap_returns_sentinel_or_value {α ε ρ : Type} (error_value : ρ)
    (fn : α → Except ε ρ) (a : α) :
    (∀ e, fn a = Except.error e → trap error_value fn a = error_value) ∧
    (∀ r, fn a = Except.ok r → trap error_value fn a = r) := by
  constructor
  · intro e he
    simp [trap, he]
  · intro r hr
    simp [trap, hr]

/-- Witness for claim C3 at a concrete callable: trapping a raising
call yields the sentinel 7, trapping a normal call yields its value. -/
theorem trap_returns_sentinel_or_value_witness :
    trap 7 trapProbe 0 = 7 ∧ trap 7 trapProbe 3 = 4 :=
  ⟨(trap_returns_sentinel_or_value 7 trapProbe 0).1 () rfl,
   (trap_returns_sentinel_or_value 7 trapProbe 3).2 4 rfl⟩

-- ---------------------------------------------------------------------------
-- Claim C6: validate_gpu_spec_against_limits

/-- Claim C6: validation returns False exactly when the requested kind
is absent from the limit map or the mapped maximum is below the
requested count, True otherwise; with limit map V100 to 2, requesting
V100 2 succeeds, V100 3 fails, T4 1 fails. -/
theorem validate_gpu_spec_false_iff :
    (∀ (s : GPUSpec) (limits : List (GPU × Nat)),
      validate_gpu_spec_against_limits s limits = false ↔
        dictGet s.gpu limits = none ∨
          ∃ mx, dictGet s.gpu limits = some mx ∧ mx < s.count) ∧
    validate_gpu_spec_against_limits (GPUSpec.mk GPU.V100 2) limitsA = true ∧
    validate_gpu_spec_against_limits (GPUSpec.mk GPU.V100 3) limitsA = false ∧
    validate_gpu_spec_against_limits (GPUSpec.mk GPU.T4 1) limitsA = false := by
  refine ⟨?_, by decide, by decide, by decide⟩
  intro s limits
  unfold validate_gpu_spec_against_limits
  cases h : dictGet s.gpu limits with
  | none => simp
  | some mx =>
    by_cases hc : s.count > mx
    · simp [hc]
    · simp [hc]

-- ---------------------------------------------------------------------------
-- Claim C7: empty terminal-condition set

/-- Claim C7: with an empty terminal-condition set, wait_for_operation
returns None immediately; its trace is empty, so in particular no
status query is issued. -/
theorem wait_for_operation_empty_conditions (sleep_sec : Nat)
    (responses : List OpResponse) :
    wait_for_operation [] sleep_sec responses = ([], none) := rfl

-- ---------------------------------------------------------------------------
-- Claim C8: user_verify

/-- Claim C8: user_verify keeps prompting until a line is read that is
empty or, up to case, y or n; that first valid line decides the result
(default on empty, True on y, False on n), and one prompt was issued
per line read up to and including it. -/
theorem user_verify_first_valid_line (default : Bool) :
    ∀ (lines : List Str) (i : Nat) (hi : i < lines.length),
      validResponse (lines.get ⟨i, hi⟩) →
      (∀ j (hj : j < i), ¬ validResponse (lines.get ⟨j, hj.trans hi⟩)) →
      user_verify default lines =
        (i + 1, some (responseVerdict default (lines.get ⟨i, hi⟩))) := by
  intro lines
  induction lines with
  | nil =>
    intro i hi
    simp at hi
  | cons line rest ih =>
    intro i hi hvalid hbefore
    cases i with
    | zero =>
      simp only [List.get] at hvalid ⊢
      rcases hvalid with h | h | h
      · simp [user_verify, responseVerdict, h]
      · simp [user_verify, responseVerdict, h]
      · simp [user_verify, responseVerdict, h]
    | succ i =>
      have hhead : ¬ validResponse line := hbefore 0 (Nat.succ_pos i)
      unfold validResponse at hhead
      push_neg at hhead
      obtain ⟨h0, hy, hn⟩ := hhead
      have hi2 : i < rest.length := Nat.lt_of_succ_lt_succ hi
      have step := ih i hi2 (by simpa using hvalid)
        (fun j hj => by simpa using hbefore (j + 1) (Nat.succ_lt_succ hj))
      simp only [List.get] at step ⊢
      simp [user_verify, List.length_eq_zero, h0, hy, hn, step]

/-- Witness for claim C8: an invalid line then an uppercase Y means two
prompts and a True result. -/
theorem user_verify_first_valid_line_witness :
    user_verify true [['m', 'a', 'y', 'b', 'e'], ['Y']] = (2, some true) := by
  have h := user_verify_first_valid_line true
    [['m', 'a', 'y', 'b', 'e'], ['Y']] 1 (by decide) (by decide) (by decide)
  simpa using h

-- ---------------------------------------------------------------------------
-- Claim C2: the polling loop

/-- Count of query events produced by a run of non-terminal polls. -/
theorem countP_query_flatten (sleep_sec : Nat) :
    ∀ l : List OpResponse,
      ((l.map (fun r => [PollEvent.query r, PollEvent.sleepCall sleep_sec])).flatten).countP
          isQueryEvent = l.length := by
  intro l
  induction l with
  | nil => simp
  | cons r rest ih =>
    simp [List.countP_cons, ih, isQueryEvent]

/-- The wait loop stops at the first terminal response: its trace pairs
one query and one sleep per earlier response and ends on the query that
received the terminal response, which it returns. -/
theorem waitLoop_first_terminal (conds : List Str) (sleep_sec : Nat) :
    ∀ (rs : List OpResponse) (i : Nat) (hi : i < rs.length),
      (rs.get ⟨i, hi⟩).status ∈ conds →
      (∀ j (hj : j < i), (rs.get ⟨j, hj.trans hi⟩).status ∉ conds) →
      waitLoop conds sleep_sec rs =
        (((rs.take i).map
            (fun r => [PollEvent.query r, PollEvent.sleepCall sleep_sec])).flatten
          ++ [PollEvent.query (rs.get ⟨i, hi⟩)],
         some (rs.get ⟨i, hi⟩)) := by
  intro rs
  induction rs with
  | nil =>
    intro i hi
    simp at hi
  | cons r rest ih =>
    intro i hi hterm hbefore
    cases i with
    | zero =>
      simp only [List.get] at hterm ⊢
      simp [waitLoop, hterm]
    | succ i =>
      have hr : r.status ∉ conds := hbefore 0 (Nat.succ_pos i)
      have hi2 : i < rest.length := Nat.lt_of_succ_lt_succ hi
      have step := ih i hi2 (by simpa using hterm)
        (fun j hj => by simpa using hbefore (j + 1) (Nat.succ_lt_succ hj))
      simp only [List.get] at step ⊢
      simp [waitLoop, hr, step]

/-- Claim C2: with a nonempty terminal set, wait_for_operation queries
one response at a time with one sleep of the fixed interval between
consecutive queries, stops at the first response whose status is in
the terminal set, returns that full response, and has issued exactly
one more query than the index of that response. -/
theorem wait_for_operation_polls_until_terminal (conditions : List OpStatus)
    (sleep_sec : Nat) (rs : List OpResponse) (i : Nat) (hi : i < rs.length)
    (hne : conditions ≠ [])
    (hterm : (rs.get ⟨i, hi⟩).status ∈ conditions.map opStatusName)
    (hbefore : ∀ j (hj : j < i),
      (rs.get ⟨j, hj.trans hi⟩).status ∉ conditions.map opStatusName) :
    wait_for_operation conditions sleep_sec rs =
      (((rs.take i).map
          (fun r => [PollEvent.query r, PollEvent.sleepCall sleep_sec])).flatten
        ++ [PollEvent.query (rs.get ⟨i, hi⟩)],
       some (rs.get ⟨i, hi⟩)) ∧
    (wait_for_operation conditions sleep_sec rs).1.countP isQueryEvent =
      i + 1 := by
  have hlen : ¬ conditions.length = 0 := by
    simpa [List.length_eq_zero] using hne
  have hmain :
      wait_for_operation conditions sleep_sec rs =
        (((rs.take i).map
            (fun r => [PollEvent.query r, PollEvent.sleepCall sleep_sec])).flatten
          ++ [PollEvent.query (rs.get ⟨i, hi⟩)],
         some (rs.get ⟨i, hi⟩)) := by
    unfold wait_for_operation
    rw [if_neg hlen]
    exact waitLoop_first_terminal _ sleep_sec rs i hi hterm hbefore
  refine ⟨hmain, ?_⟩
  have h1 : (wait_for_operation conditions sleep_sec rs).1 =
      ((rs.take i).map
          (fun r => [PollEvent.query r, PollEvent.sleepCall sleep_sec])).flatten
        ++ [PollEvent.query (rs.get ⟨i, hi⟩)] := by rw [hmain]
  rw [h1, List.countP_append, countP_query_flatten sleep_sec (rs.take i)]
  simp [isQueryEvent, List.countP_cons, List.length_take,
    Nat.min_eq_left (Nat.le_of_lt hi)]

/-- Witness for claim C2: statuses RUNNING, RUNNING, DONE against the
terminal set holding DONE alone give exactly three queries with a sleep
between consecutive ones, and the third response is returned. -/
theorem wait_for_operation_polls_until_terminal_witness :
    wait_for_operation [OpStatus.DONE] 1
        [OpResponse.mk (opStatusName OpStatus.RUNNING) 0,
         OpResponse.mk (opStatusName OpStatus.RUNNING) 1,
         OpResponse.mk (opStatusName OpStatus.DONE) 2] =
      ([PollEvent.query (OpResponse.mk (opStatusName OpStatus.RUNNING) 0),
        PollEvent.sleepCall 1,
        PollEvent.query (OpResponse.mk (opStatusName OpStatus.RUNNING) 1),
        PollEvent.sleepCall 1,
        PollEvent.query (OpResponse.mk (opStatusName OpStatus.DONE) 2)],
       some (OpResponse.mk (opStatusName OpStatus.DONE) 2)) ∧
    (wait_for_operation [OpStatus.DONE] 1
        [OpResponse.mk (opStatusName OpStatus.RUNNING) 0,
         OpResponse.mk (opStatusName OpStatus.RUNNING) 1,
         OpResponse.mk (opStatusName OpStatus.DONE) 2]).1.countP
      isQueryEvent = 3 := by
  have h := wait_for_operation_polls_until_terminal [OpStatus.DONE] 1
    [OpResponse.mk (opStatusName OpStatus.RUNNING) 0,
     OpResponse.mk (opStatusName OpStatus.RUNNING) 1,
     OpResponse.mk (opStatusName OpStatus.DONE) 2] 2
    (by decide) (by decide) (by decide) (by decide)
  exact ⟨h.1.trans (by decide), h.2⟩

-- ---------------------------------------------------------------------------
-- Claim C4: gke_tpu_to_tpuspec

/-- takeWhile and dropWhile cut a group followed by a dollar tail at
the boundary, for any class the newline is outside of. -/
theorem takeWhile_dropWhile_dollar (P : Char → Bool) (hn : P '\n' = false)
    (l nl : Str) (hl : ∀ c ∈ l, P c = true) (hnl : dollarTail nl) :
    (l ++ nl).takeWhile P = l ∧ (l ++ nl).dropWhile P = nl := by
  apply takeWhile_dropWhile_append P l nl hl
  intro c hc
  rcases hnl with rfl | rfl
  · simp at hc
  · simp at hc
    subst hc
    exact hn

/-- A string opening with v3- does not open with v2-. -/
theorem dropPre_v2_v3 (l : Str) : dropPre v2dash (v3dash ++ l) = none := by
  simp [dropPre, v2dash, v3dash]

/-- Characterization of the compiled tpu regex: it matches exactly the
strings built from a version literal, a dash, a nonempty digit group
and a dollar tail, and returns the version and digit groups. -/
theorem tpuReMatch_eq_some (s v ds : Str) :
    tpuReMatch s = some (v, ds) ↔
      ∃ nl, dollarTail nl ∧ ds ≠ [] ∧ (∀ c ∈ ds, c.isDigit = true) ∧
        ((v = ['v', '2'] ∧ s = v2dash ++ (ds ++ nl)) ∨
         (v = ['v', '3'] ∧ s = v3dash ++ (ds ++ nl))) := by
  constructor
  · intro h
    unfold tpuReMatch at h
    cases h2 : dropPre v2dash s with
    | some rest =>
      rw [h2] at h
      simp only [] at h
      split_ifs at h with hc
      · simp only [Option.some.injEq, Prod.mk.injEq] at h
        obtain ⟨hv, hds⟩ := h
        refine ⟨rest.dropWhile Char.isDigit, hc.2, ?_, ?_, Or.inl ⟨hv.symm, ?_⟩⟩
        · rw [← hds]
          exact hc.1
        · intro c hcm
          rw [← hds] at hcm
          exact List.mem_takeWhile_imp hcm
        · rw [(dropPre_eq_some v2dash s rest).mp h2, ← hds,
            List.takeWhile_append_dropWhile]
    | none =>
      rw [h2] at h
      cases h3 : dropPre v3dash s with
      | some rest =>
        rw [h3] at h
        simp only [] at h
        split_ifs at h with hc
        · simp only [Option.some.injEq, Prod.mk.injEq] at h
          obtain ⟨hv, hds⟩ := h
          refine ⟨rest.dropWhile Char.isDigit, hc.2, ?_, ?_, Or.inr ⟨hv.symm, ?_⟩⟩
          · rw [← hds]
            exact hc.1
          · intro c hcm
            rw [← hds] at hcm
            exact List.mem_takeWhile_imp hcm
          · rw [(dropPre_eq_some v3dash s rest).mp h3, ← hds,
              List.takeWhile_append_dropWhile]
      | none =>
        rw [h3] at h
        exact absurd h (by simp)
  · rintro ⟨nl, hnl, hne, hdig, ⟨hv, hs⟩ | ⟨hv, hs⟩⟩
    · subst hv
      subst hs
      have hcut := takeWhile_dropWhile_dollar Char.isDigit (by decide)
        ds nl hdig hnl
      unfold tpuReMatch
      rw [dropPre_append]
      simp only [hcut.1, hcut.2]
      rw [if_pos ⟨hne, hnl⟩]
    · subst hv
      subst hs
      have hcut := takeWhile_dropWhile_dollar Char.isDigit (by decide)
        ds nl hdig hnl
      unfold tpuReMatch
      rw [dropPre_v2_v3, dropPre_append]
      simp only [hcut.1, hcut.2]
      rw [if_pos ⟨hne, hnl⟩]

/-- Claim C4 (amended): gke_tpu_to_tpuspec accepts exactly the strings
of the form version, dash, nonempty decimal count, with the version in
v2, v3 — and, because the Python dollar anchor also matches just
before one trailing newline, the same strings followed by one newline.
On acceptance the TPUSpec carries the matching version and the parsed
count; every other string gives None. -/
theorem gke_tpu_to_tpuspec_accepts (s : Str) :
    (∀ (v : TPU) (ds nl : Str), dollarTail nl →
        s = tpuVerChars v ++ '-' :: (ds ++ nl) → ds ≠ [] →
        (∀ c ∈ ds, c.isDigit = true) →
        gke_tpu_to_tpuspec s = some (TPUSpec.mk v (natOfDigits ds))) ∧
    ((∀ (v : TPU) (ds nl : Str),
        ¬(dollarTail nl ∧ s = tpuVerChars v ++ '-' :: (ds ++ nl) ∧ ds ≠ [] ∧
          ∀ c ∈ ds, c.isDigit = true)) →
      gke_tpu_to_tpuspec s = none) := by
  constructor
  · intro v ds nl hnl hs hne hdig
    cases v with
    | V2 =>
      have hm : tpuReMatch s = some (['v', '2'], ds) :=
        (tpuReMatch_eq_some s ['v', '2'] ds).mpr
          ⟨nl, hnl, hne, hdig, Or.inl ⟨rfl, hs⟩⟩
      unfold gke_tpu_to_tpuspec
      rw [hm]
      rfl
    | V3 =>
      have hm : tpuReMatch s = some (['v', '3'], ds) :=
        (tpuReMatch_eq_some s ['v', '3'] ds).mpr
          ⟨nl, hnl, hne, hdig, Or.inr ⟨rfl, hs⟩⟩
      unfold gke_tpu_to_tpuspec
      rw [hm]
      rfl
  · intro hno
    unfold gke_tpu_to_tpuspec
    cases hm : tpuReMatch s with
    | none => rfl
    | some p =>
      obtain ⟨v, ds⟩ := p
      obtain ⟨nl, hnl, hne, hdig, hcase⟩ := (tpuReMatch_eq_some s v ds).mp hm
      rcases hcase with ⟨hv, hs⟩ | ⟨hv, hs⟩
      · exact absurd ⟨hnl, hs, hne, hdig⟩ (hno TPU.V2 ds nl)
      · exact absurd ⟨hnl, hs, hne, hdig⟩ (hno TPU.V3 ds nl)

/-- Counterexample to claim C4 as stated: the string v2-4 followed by
one newline is not of the form version, dash, decimal count, yet the
converter returns a TPUSpec rather than None, because the Python
dollar anchor matches just before a trailing newline. -/
theorem gke_tpu_to_tpuspec_counterexample :
    gke_tpu_to_tpuspec ['v', '2', '-', '4', '\n'] =
        some (TPUSpec.mk TPU.V2 4) ∧
    ∀ (v : TPU) (ds : Str),
      ¬(['v', '2', '-', '4', '\n'] = tpuVerChars v ++ '-' :: ds ∧ ds ≠ [] ∧
        ∀ c ∈ ds, c.isDigit = true) := by
  constructor
  · decide
  · rintro v ds ⟨heq, hne, hdig⟩
    cases v with
    | V2 =>
      simp [tpuVerChars] at heq
      subst heq
      exact absurd (hdig '\n' (by simp)) (by decide)
    | V3 =>
      simp [tpuVerChars] at heq

/-- Witness for claim C4: v3-8 parses to the v3 spec with count 8. -/
theorem gke_tpu_to_tpuspec_accepts_witness :
    gke_tpu_to_tpuspec ['v', '3', '-', '8'] = some (TPUSpec.mk TPU.V3 8) :=
  (gke_tpu_to_tpuspec_accepts ['v', '3', '-', '8']).1 TPU.V3 ['8'] []
    (Or.inl rfl) rfl (by decide) (by decide)

-- ---------------------------------------------------------------------------
-- Claims C5 and C10: gke_gpu_to_gpu

/-- Characterization of the compiled gpu regex: it matches exactly the
nvidia-tesla- literal followed by a nonempty group of lowercase letters
and digits and a dollar tail, and returns the group. -/
theorem gpuReMatch_eq_some (s m : Str) :
    gpuReMatch s = some m ↔
      ∃ nl, dollarTail nl ∧ s = nvidiaTesla ++ (m ++ nl) ∧ m ≠ [] ∧
        ∀ c ∈ m, gpuClass c = true := by
  constructor
  · intro h
    unfold gpuReMatch at h
    cases h2 : dropPre nvidiaTesla s with
    | none =>
      rw [h2] at h
      exact absurd h (by simp)
    | some rest =>
      rw [h2] at h
      simp only [] at h
      split_ifs at h with hc
      · simp only [Option.some.injEq] at h
        refine ⟨rest.dropWhile gpuClass, hc.2, ?_, ?_, ?_⟩
        · rw [(dropPre_eq_some nvidiaTesla s rest).mp h2, ← h,
            List.takeWhile_append_dropWhile]
        · rw [← h]
          exact hc.1
        · intro c hcm
          rw [← h] at hcm
          exact List.mem_takeWhile_imp hcm
  · rintro ⟨nl, hnl, hs, hne, hclass⟩
    subst hs
    have hcut := takeWhile_dropWhile_dollar gpuClass (by decide) m nl hclass hnl
    unfold gpuReMatch
    rw [dropPre_append]
    simp only [hcut.1, hcut.2]
    rw [if_pos ⟨hne, hnl⟩]

/-- Claim C5 (amended): gke_gpu_to_gpu returns the matching GPU kind
exactly on the strings nvidia-tesla- followed by a nonempty lowercase
letter and digit model naming a known GPU — and, because the Python
dollar anchor also matches just before one trailing newline, on the
same strings followed by one newline.  Unknown models and every other
string give None. -/
theorem gke_gpu_to_gpu_accepts (s : Str) :
    (∀ (m nl : Str) (g : GPU), dollarTail nl →
        s = nvidiaTesla ++ (m ++ nl) → m ≠ [] →
        (∀ c ∈ m, gpuClass c = true) →
        GPU.fromName (upperStr m) = some g →
        gke_gpu_to_gpu s = some g) ∧
    ((∀ (m nl : Str) (g : GPU),
        ¬(dollarTail nl ∧ s = nvidiaTesla ++ (m ++ nl) ∧ m ≠ [] ∧
          (∀ c ∈ m, gpuClass c = true) ∧
          GPU.fromName (upperStr m) = some g)) →
      gke_gpu_to_gpu s = none) := by
  constructor
  · intro m nl g hnl hs hne hclass hname
    have hm : gpuReMatch s = some m :=
      (gpuReMatch_eq_some s m).mpr ⟨nl, hnl, hs, hne, hclass⟩
    unfold gke_gpu_to_gpu
    rw [hm]
    exact hname
  · intro hno
    unfold gke_gpu_to_gpu
    cases hm : gpuReMatch s with
    | none => rfl
    | some m =>
      obtain ⟨nl, hnl, hs, hne, hclass⟩ := (gpuReMatch_eq_some s m).mp hm
      cases hf : GPU.fromName (upperStr m) with
      | none => exact hf
      | some g =>
        exact absurd ⟨hnl, hs, hne, hclass, hf⟩ (hno m nl g)

/-- Counterexample to claim C5 as stated: nvidia-tesla-v100 followed
by one newline is malformed for the claimed pattern, yet the converter
returns the V100 kind rather than None, because the Python dollar
anchor matches just before a trailing newline. -/
theorem gke_gpu_to_gpu_counterexample :
    gke_gpu_to_gpu (nvidiaTesla ++ ['v', '1', '0', '0', '\n']) =
        some GPU.V100 ∧
    ∀ (m : Str) (g : GPU),
      ¬(nvidiaTesla ++ ['v', '1', '0', '0', '\n'] = nvidiaTesla ++ m ∧
        m ≠ [] ∧ (∀ c ∈ m, gpuClass c = true) ∧
        GPU.fromName (upperStr m) = some g) := by
  constructor
  · decide
  · rintro m g ⟨heq, hne, hclass, hname⟩
    simp [nvidiaTesla] at heq
    subst heq
    exact absurd (hclass '\n' (by simp)) (by decide)

/-- Witness for claim C5: nvidia-tesla-v100 converts to the V100 kind. -/
theorem gke_gpu_to_gpu_accepts_witness :
    gke_gpu_to_gpu (nvidiaTesla ++ ['v', '1', '0', '0']) = some GPU.V100 :=
  (gke_gpu_to_gpu_accepts (nvidiaTesla ++ ['v', '1', '0', '0'])).1
    ['v', '1', '0', '0'] [] GPU.V100 (Or.inl rfl) rfl (by decide) (by decide)
    (by decide)

/-- Claim C10 (amended): a model group holding any character outside
lowercase letters and digits makes gke_gpu_to_gpu return None — unless
the offending content is exactly one trailing newline after a nonempty
valid group, which the Python dollar anchor absorbs.  Matching stays
case-sensitive: nvidia-tesla-V100 gives None even though the model
V100 is known after uppercasing. -/
theorem gke_gpu_to_gpu_case_sensitive :
    (∀ m : Str, (∃ c ∈ m, gpuClass c = false) →
      (∀ ds : Str, ¬(m = ds ++ ['\n'] ∧ ds ≠ [] ∧
        ∀ c ∈ ds, gpuClass c = true)) →
      gke_gpu_to_gpu (nvidiaTesla ++ m) = none) ∧
    gke_gpu_to_gpu (nvidiaTesla ++ ['V', '1', '0', '0']) = none ∧
    GPU.fromName (upperStr ['V', '1', '0', '0']) = some GPU.V100 := by
  refine ⟨?_, by decide, by decide⟩
  intro m hbad hnotnl
  unfold gke_gpu_to_gpu
  cases hm : gpuReMatch (nvidiaTesla ++ m) with
  | none => rfl
  | some md =>
    obtain ⟨nl, hnl, hs, hne, hclass⟩ :=
      (gpuReMatch_eq_some (nvidiaTesla ++ m) md).mp hm
    have hm2 : m = md ++ nl := List.append_cancel_left hs
    rcases hnl with rfl | rfl
    · obtain ⟨c, hcm, hcbad⟩ := hbad
      rw [hm2, List.append_nil] at hcm
      exact absurd (hclass c hcm) (by simp [hcbad])
    · exact absurd ⟨hm2, hne, hclass⟩ (hnotnl md)

/-- Counterexample to claim C10 as stated: the model portion v100
followed by a newline holds a character outside lowercase letters and
digits, yet the converter returns the V100 kind rather than None. -/
theorem gke_gpu_to_gpu_c10_counterexample :
    (∃ c ∈ (['v', '1', '0', '0', '\n'] : Str), gpuClass c = false) ∧
    gke_gpu_to_gpu (nvidiaTesla ++ ['v', '1', '0', '0', '\n']) =
      some GPU.V100 := by
  decide

/-- Witness for claim C10: nvidia-tesla-V100 (uppercase model) gives
None. -/
theorem gke_gpu_to_gpu_case_sensitive_witness :
    gke_gpu_to_gpu (nvidiaTesla ++ ['V', '1', '0', '0']) = none := by
  apply gke_gpu_to_gpu_case_sensitive.1 ['V', '1', '0', '0'] (by decide)
  rintro ds ⟨heq, hne, hall⟩
  have hmem : '\n' ∈ (['V', '1', '0', '0'] : Str) := by
    rw [heq]
    simp
  simp at hmem

-- ---------------------------------------------------------------------------
-- Claims C1 and C9: resource_limits_from_quotas

/-- A list whose last element is known splits off that element. -/
theorem eq_dropLast_append_of_getLast (l : Str) (c : Char)
    (h : l.getLast? = some c) : l = l.dropLast ++ [c] := by
  have hne : l ≠ [] := by
    intro h2
    subst h2
    simp at h
  have hg : l.getLast hne = c := by
    have h3 := List.getLast?_eq_getLast l hne
    rw [h] at h3
    exact (Option.some.injEq _ _ ▸ h3).symm
  rw [← hg]
  exact (List.dropLast_append_getLast hne).symm

/-- The last element of a nested append ending in a singleton. -/
theorem getLast_append3 (l r x : Str) (c : Char) :
    (l ++ (r ++ (x ++ [c]))).getLast? = some c := by
  have h : l ++ (r ++ (x ++ [c])) = (l ++ (r ++ x)) ++ [c] := by
    simp [List.append_assoc]
  rw [h, List.getLast?_concat]

/-- Characterization of the compiled gpu quota regex: it matches
exactly the NVIDIA_ literal, a nonempty group of uppercase letters and
digits, the _GPUS literal and a dollar tail, returning the group. -/
theorem gpuQuotaMatch_eq_some (metric mid : Str) :
    gpuQuotaMatch metric = some mid ↔
      ∃ nl, dollarTail nl ∧
        metric = nvidiaQuotaPre ++ (mid ++ (gpusSuffix ++ nl)) ∧
        mid ≠ [] ∧ ∀ c ∈ mid, quotaGpuClass c = true := by
  constructor
  · intro h
    unfold gpuQuotaMatch at h
    cases h2 : dropPre nvidiaQuotaPre metric with
    | none =>
      rw [h2] at h
      exact absurd h (by simp)
    | some rest =>
      rw [h2] at h
      simp only [] at h
      split_ifs at h with hc
      · simp only [Option.some.injEq] at h
        have hrest : rest =
            mid ++ rest.dropWhile quotaGpuClass := by
          rw [← h, List.takeWhile_append_dropWhile]
        rcases hc.2 with hrem | hrem
        · refine ⟨[], Or.inl rfl, ?_, ?_, ?_⟩
          · rw [(dropPre_eq_some nvidiaQuotaPre metric rest).mp h2, hrest,
              hrem, List.append_nil]
          · rw [← h]
            exact hc.1
          · intro c hcm
            rw [← h] at hcm
            exact List.mem_takeWhile_imp hcm
        · refine ⟨['\n'], Or.inr rfl, ?_, ?_, ?_⟩
          · rw [(dropPre_eq_some nvidiaQuotaPre metric rest).mp h2, hrest,
              hrem]
          · rw [← h]
            exact hc.1
          · intro c hcm
            rw [← h] at hcm
            exact List.mem_takeWhile_imp hcm
  · rintro ⟨nl, hnl, hs, hne, hclass⟩
    subst hs
    have hhead : ∀ c, (gpusSuffix ++ nl).head? = some c →
        quotaGpuClass c = false := by
      intro c hcm
      simp [gpusSuffix] at hcm
      subst hcm
      decide
    have hcut := takeWhile_dropWhile_append quotaGpuClass mid
      (gpusSuffix ++ nl) hclass hhead
    unfold gpuQuotaMatch
    rw [dropPre_append]
    simp only [hcut.1, hcut.2]
    rcases hnl with rfl | rfl
    · rw [if_pos ⟨hne, Or.inl (by simp)⟩]
    · rw [if_pos ⟨hne, Or.inr rfl⟩]

/-- Characterization of the spec-side slicing check on a core with no
trailing newline. -/
theorem specGpuCore_eq_some (core mid : Str) :
    specGpuCore core = some mid ↔
      core = nvidiaQuotaPre ++ (mid ++ gpusSuffix) ∧ mid ≠ [] ∧
        ∀ c ∈ mid, quotaGpuClass c = true := by
  constructor
  · intro h
    unfold specGpuCore at h
    by_cases h1 : 12 < core.length ∧ core.take 7 = nvidiaQuotaPre ∧
        core.drop (core.length - 5) = gpusSuffix
    case neg =>
      rw [if_neg h1] at h
      exact absurd h (by simp)
    rw [if_pos h1] at h
    by_cases h2 : ((core.drop 7).take (core.length - 12)).all quotaGpuClass
    case neg =>
      rw [if_neg h2] at h
      exact absurd h (by simp)
    rw [if_pos h2] at h
    simp only [Option.some.injEq] at h
    obtain ⟨hlen, htake, hdrop⟩ := h1
    have hmid : (core.drop 7).take (core.length - 12) = mid := h
    refine ⟨?_, ?_, ?_⟩
    · have e1 : core = core.take 7 ++ core.drop 7 :=
        (List.take_append_drop 7 core).symm
      have e2 : core.drop 7 =
          (core.drop 7).take (core.length - 12) ++
            (core.drop 7).drop (core.length - 12) :=
        (List.take_append_drop _ _).symm
      have e3 : (core.drop 7).drop (core.length - 12) =
          core.drop (core.length - 5) := by
        rw [List.drop_drop]
        congr 1
        omega
      rw [e1, htake]
      rw [e2, hmid, e3, hdrop]
    · intro h0
      rw [h0] at hmid
      have hlm := congrArg List.length hmid
      rw [List.length_take, List.length_drop] at hlm
      simp at hlm
      omega
    · intro c hcm
      rw [← hmid] at hcm
      have := (List.all_eq_true.mp h2) c hcm
      simpa using this
  · rintro ⟨hs, hne, hclass⟩
    subst hs
    have h7 : nvidiaQuotaPre.length = 7 := rfl
    have h5 : gpusSuffix.length = 5 := rfl
    have hlen : (nvidiaQuotaPre ++ (mid ++ gpusSuffix)).length =
        12 + mid.length := by
      rw [List.length_append, List.length_append, h7, h5]
      omega
    have hmidpos : 0 < mid.length := List.length_pos.mpr hne
    have htake : (nvidiaQuotaPre ++ (mid ++ gpusSuffix)).take 7 =
        nvidiaQuotaPre := List.take_left' rfl
    have hassoc : nvidiaQuotaPre ++ (mid ++ gpusSuffix) =
        (nvidiaQuotaPre ++ mid) ++ gpusSuffix := by
      simp [List.append_assoc]
    have hdrop : (nvidiaQuotaPre ++ (mid ++ gpusSuffix)).drop
        ((nvidiaQuotaPre ++ (mid ++ gpusSuffix)).length - 5) = gpusSuffix := by
      rw [hlen, hassoc]
      apply List.drop_left'
      rw [List.length_append, h7]
      omega
    have hdrop7 : (nvidiaQuotaPre ++ (mid ++ gpusSuffix)).drop 7 =
        mid ++ gpusSuffix := List.drop_left' rfl
    have hmid : ((nvidiaQuotaPre ++ (mid ++ gpusSuffix)).drop 7).take
        ((nvidiaQuotaPre ++ (mid ++ gpusSuffix)).length - 12) = mid := by
      rw [hlen, hdrop7]
      apply List.take_left'
      omega
    unfold specGpuCore
    rw [if_pos ⟨by omega, htake, hdrop⟩, hmid,
      if_pos (List.all_eq_true.mpr (fun c hcm => by simpa using hclass c hcm))]

/-- Characterization of the spec-side gpu quota metric match, same
shape as the compiled regex characterization. -/
theorem specGpuModel_eq_some (metric mid : Str) :
    specGpuModel metric = some mid ↔
      ∃ nl, dollarTail nl ∧
        metric = nvidiaQuotaPre ++ (mid ++ (gpusSuffix ++ nl)) ∧
        mid ≠ [] ∧ ∀ c ∈ mid, quotaGpuClass c = true := by
  have hsplit : gpusSuffix = ['_', 'G', 'P', 'U'] ++ ['S'] := rfl
  constructor
  · intro h
    unfold specGpuModel at h
    by_cases hl : metric.getLast? = some '\n'
    · rw [if_pos hl] at h
      obtain ⟨hcore, hne, hclass⟩ := (specGpuCore_eq_some _ mid).mp h
      refine ⟨['\n'], Or.inr rfl, ?_, hne, hclass⟩
      have hm := eq_dropLast_append_of_getLast metric '\n' hl
      rw [hm, hcore]
      simp [List.append_assoc]
    · rw [if_neg hl] at h
      obtain ⟨hcore, hne, hclass⟩ := (specGpuCore_eq_some _ mid).mp h
      refine ⟨[], Or.inl rfl, ?_, hne, hclass⟩
      rw [hcore]
      simp
  · rintro ⟨nl, hnl, hs, hne, hclass⟩
    unfold specGpuModel
    rcases hnl with rfl | rfl
    · rw [List.append_nil] at hs
      have hlast : metric.getLast? = some 'S' := by
        rw [hs, hsplit]
        exact getLast_append3 _ _ _ _
      rw [if_neg (by rw [hlast]; decide)]
      exact (specGpuCore_eq_some metric mid).mpr ⟨hs, hne, hclass⟩
    · have hlast : metric.getLast? = some '\n' := by
        rw [hs]
        exact getLast_append3 _ _ _ _
      rw [if_pos hlast]
      have hdl : metric.dropLast = nvidiaQuotaPre ++ (mid ++ gpusSuffix) := by
        have e : metric = (nvidiaQuotaPre ++ (mid ++ gpusSuffix)) ++ ['\n'] := by
          rw [hs]
          simp [List.append_assoc]
        rw [e, List.dropLast_concat]
      rw [hdl]
      exact (specGpuCore_eq_some _ mid).mpr ⟨rfl, hne, hclass⟩

/-- The compiled gpu quota regex and the spec-side slicing check agree
on every metric. -/
theorem gpuQuotaMatch_eq_spec (metric : Str) :
    gpuQuotaMatch metric = specGpuModel metric := by
  cases h : gpuQuotaMatch metric with
  | some mid =>
    exact ((specGpuModel_eq_some metric mid).mpr
      ((gpuQuotaMatch_eq_some metric mid).mp h)).symm
  | none =>
    cases h2 : specGpuModel metric with
    | none => rfl
    | some mid =>
      exact absurd ((gpuQuotaMatch_eq_some metric mid).mpr
        ((specGpuModel_eq_some metric mid).mp h2)) (by simp [h])

/-- The accumulator loop of the translation equals the flattened
per-record spec mapping appended to the accumulator. -/
theorem rlLoop_eq (qs : List Quota) :
    ∀ acc, rlLoop qs acc = acc ++ (qs.map specQuotaLimits).flatten := by
  induction qs with
  | nil =>
    intro acc
    simp [rlLoop]
  | cons q qs ih =>
    intro acc
    by_cases hc : q.metric = cpusStr
    · simp only [rlLoop, List.map_cons, List.flatten_cons]
      rw [if_pos hc, ih]
      simp [specQuotaLimits, hc, List.append_assoc]
    · have hg := gpuQuotaMatch_eq_spec q.metric
      cases hs : specGpuModel q.metric with
      | none =>
        simp only [rlLoop, List.map_cons, List.flatten_cons]
        rw [if_neg hc, hg, hs, ih]
        simp [specQuotaLimits, hc, hs]
      | some mid =>
        simp only [rlLoop, List.map_cons, List.flatten_cons]
        rw [if_neg hc, hg, hs]
        simp only []
        rw [ih]
        simp [specQuotaLimits, hc, hs, List.append_assoc]

/-- Claim C1 (amended): the translation equals the order-preserving,
non-deduplicating flat map of the per-record spec mapping: CPUS yields
the cpu record then the memory record (limit times the GB-per-CPU
constant), a metric matching the NVIDIA_ model _GPUS pattern — or that
pattern followed by one trailing newline, which the Python dollar
anchor absorbs — yields one lowercased nvidia-tesla record, and every
other metric yields nothing.  The spec test vectors and the
duplicate-metric behavior follow. -/
theorem resource_limits_from_quotas_spec :
    (∀ quotas : List Quota,
      resource_limits_from_quotas quotas =
        (quotas.map specQuotaLimits).flatten) ∧
    resource_limits_from_quotas [Quota.mk cpusStr 4 0] =
      [ResourceLimit.mk cpuStr (PyVal.str ['4']),
       ResourceLimit.mk memoryStr (PyVal.str ['6', '4'])] ∧
    resource_limits_from_quotas
        [Quota.mk (nvidiaQuotaPre ++ (['V', '1', '0', '0'] ++ gpusSuffix))
          2 0] =
      [ResourceLimit.mk (nvidiaTesla ++ ['v', '1', '0', '0'])
        (PyVal.str ['2'])] ∧
    resource_limits_from_quotas [Quota.mk ['D', 'I', 'S', 'K', 'S'] 10 0] =
      [] ∧
    (∀ q : Quota, resource_limits_from_quotas [q, q] =
      specQuotaLimits q ++ specQuotaLimits q) := by
  have hmain : ∀ quotas : List Quota,
      resource_limits_from_quotas quotas =
        (quotas.map specQuotaLimits).flatten :=
    fun quotas => (rlLoop_eq quotas []).trans (List.nil_append _)
  refine ⟨hmain, by decide, by decide, by decide, ?_⟩
  intro q
  rw [hmain [q, q]]
  simp

/-- Counterexample to claim C1 as stated: the metric NVIDIA_V100_GPUS
followed by one newline is neither CPUS nor of the NVIDIA_ model _GPUS
form, so the claim says it is ignored, yet the translation emits a gpu
limit record for it. -/
theorem resource_limits_from_quotas_counterexample :
    resource_limits_from_quotas [Quota.mk nlQuotaMetric 2 0] =
      [ResourceLimit.mk (nvidiaTesla ++ ['v', '1', '0', '0'])
        (PyVal.str ['2'])] ∧
    nlQuotaMetric ≠ cpusStr ∧
    (∀ mid : Str, nlQuotaMetric ≠ nvidiaQuotaPre ++ (mid ++ gpusSuffix)) := by
  refine ⟨by decide, by decide, ?_⟩
  intro mid h
  have h1 : nlQuotaMetric.getLast? = some '\n' := by decide
  have h2 : (nvidiaQuotaPre ++ (mid ++ gpusSuffix)).getLast? = some 'S' := by
    have hsplit : gpusSuffix = ['_', 'G', 'P', 'U'] ++ ['S'] := rfl
    rw [hsplit]
    exact getLast_append3 _ _ _ _
  rw [h, h2] at h1
  exact absurd h1 (by decide)

/-- Claim C9: every maximum field the translation emits is a Python
str, namely the decimal string rendering of an integer computed from
the quota limit (for the memory record, the limit is multiplied by the
GB-per-CPU constant before stringification). -/
theorem resource_limits_maximum_is_str (quotas : List Quota)
    (r : ResourceLimit) (hr : r ∈ resource_limits_from_quotas quotas) :
    ∃ n : Int, r.maximum = PyVal.str (intStr n) := by
  have h1 : resource_limits_from_quotas quotas =
      (quotas.map specQuotaLimits).flatten :=
    (rlLoop_eq quotas []).trans (List.nil_append _)
  rw [h1, List.mem_flatten] at hr
  obtain ⟨l, hl, hrl⟩ := hr
  rw [List.mem_map] at hl
  obtain ⟨q, hq, rfl⟩ := hl
  unfold specQuotaLimits at hrl
  by_cases hc : q.metric = cpusStr
  · rw [if_pos hc] at hrl
    simp at hrl
    rcases hrl with rfl | rfl
    · exact ⟨q.limit, rfl⟩
    · exact ⟨q.limit * MAX_GB_PER_CPU, rfl⟩
  · rw [if_neg hc] at hrl
    cases hs : specGpuModel q.metric with
    | none =>
      rw [hs] at hrl
      simp at hrl
    | some mid =>
      rw [hs] at hrl
      simp at hrl
      subst hrl
      exact ⟨q.limit, rfl⟩

/-- Witness for claim C9: the memory record emitted for a CPUS quota
with limit 4 carries the string 64. -/
theorem resource_limits_maximum_is_str_witness :
    ∃ n : Int,
      (ResourceLimit.mk memoryStr (PyVal.str ['6', '4'])).maximum =
        PyVal.str (intStr n) :=
  resource_limits_maximum_is_str [Quota.mk cpusStr 4 0]
    (ResourceLimit.mk memoryStr (PyVal.str ['6', '4'])) (by decide)
